import Mathlib

/-!
Verification of the top-languages aggregation and card rendering of
github-readme-stats (akazukin5151 fork).

The embedding follows the two source files:
- the top-languages fetcher (`fetchTopLanguages`), which normalizes each
  repository's language byte sizes into within-repository shares;
- `src/cards/top-languages-card.js` (`useLanguages`, `renderCompactLayout`,
  `renderTopLanguages`, the height helpers and the merge pass).

JavaScript numbers are modelled as exact rationals; the special values that
can arise from division are made explicit in `JSNum`.  Helpers that live in
`src/common/utils.js`, `src/common/Card.js` and the i18n layer are not part of
the provided sources; they are modelled from the spec and are marked as such.
-/

namespace GithubReadmeStats

/-! ### JavaScript numeric model -/

/-- A JavaScript number: either a finite value (an exact rational) or one of
the non-finite values `NaN`, `Infinity`, `-Infinity` that division can
produce. -/
inductive JSNum where
  | nan
  | posInf
  | negInf
  | num (q : ℚ)
deriving DecidableEq

/-- JavaScript division `a / b` on finite operands: division by zero yields
`NaN` when the numerator is zero and a signed infinity otherwise. -/
def jsDiv (a b : ℚ) : JSNum :=
  if b = 0 then
    if a = 0 then JSNum.nan
    else if 0 < a then JSNum.posInf
    else JSNum.negInf
  else JSNum.num (a / b)

/-- JavaScript addition on `JSNum`: `NaN` is absorbing, opposite infinities
give `NaN`. -/
def jsAdd : JSNum → JSNum → JSNum
  | JSNum.nan, _ => JSNum.nan
  | _, JSNum.nan => JSNum.nan
  | JSNum.posInf, JSNum.negInf => JSNum.nan
  | JSNum.negInf, JSNum.posInf => JSNum.nan
  | JSNum.posInf, _ => JSNum.posInf
  | _, JSNum.posInf => JSNum.posInf
  | JSNum.negInf, _ => JSNum.negInf
  | _, JSNum.negInf => JSNum.negInf
  | JSNum.num a, JSNum.num b => JSNum.num (a + b)

/-- Sum of a list of JavaScript numbers, starting from `0`. -/
def jsSum (l : List JSNum) : JSNum :=
  l.foldl jsAdd (JSNum.num 0)

/-- `Math.round`: round to the nearest integer, ties towards positive
infinity. -/
def jsRound (q : ℚ) : ℤ :=
  ⌊q + 1 / 2⌋

/-- The rational denoted by `x.toFixed(2)` for a finite `x` (`toFixed` rounds
to the nearest two-decimal value, ties away from zero towards the larger
candidate, which for the nonnegative values used here is rounding half up). -/
def round2 (q : ℚ) : ℚ :=
  (jsRound (q * 100) : ℚ) / 100

/-! ### The fetcher (`fetchTopLanguages` source file) -/

/-- A GraphQL language node: `lang.node` in the query result. -/
structure LangNode where
  color : String
  name : String
deriving DecidableEq

/-- A language edge of one repository: `{ size, node { color name } }`.
A `null` color from the API is modelled as the empty string (both are falsy
in the source's guards). -/
structure LangEdge where
  size : ℚ
  node : LangNode
deriving DecidableEq

/-- One element of `res.data.data.user.repositories.nodes`. -/
structure RepoNode where
  name : String
  edges : List LangEdge
deriving DecidableEq

/-- One element of `res.data.errors`.  A missing `message` is modelled as the
empty string (falsy, like the source's `|| "Could not fetch user"` guard). -/
structure GqlError where
  type : String
  message : String
deriving DecidableEq

/-- The part of the upstream response that `fetchTopLanguages` inspects. -/
structure GqlResponse where
  errors : Option (List GqlError)
  nodes : List RepoNode
deriving DecidableEq

/-- A within-repository normalized share, as produced by the fetcher's
`.map` over `repo.languages.edges`. -/
structure NormShare where
  name : String
  color : String
  size : JSNum
  repo_name : String
deriving DecidableEq

/-- The conditions `fetchTopLanguages` can fail with:
`missingParam` models `MissingParamError`, `generic` models a plain
`throw Error(...)`, `userNotFound` and `custom` model the two
`CustomError` variants, and `runtime` models a JavaScript `TypeError`
(indexing `errors[0]` on an empty array). -/
inductive FetchError where
  | missingParam (params : List String)
  | generic (message : String)
  | userNotFound (message : String)
  | custom (message : String) (type : String)
  | runtime
deriving DecidableEq

/-- The `totalSize` computed per repository:
`repo.languages.edges.map(lang => lang.size).reduce((a, b) => a + b, 0)`. -/
def repoTotalSize (repo : RepoNode) : ℚ :=
  (repo.edges.map (fun lang => lang.size)).foldl (· + ·) 0

/-- The per-repository normalization step of `fetchTopLanguages`: each edge
becomes a record whose `size` is `lang.size / totalSize` under JavaScript
division semantics. -/
def normalizeRepo (repo : RepoNode) : List NormShare :=
  repo.edges.map (fun lang =>
    { name := lang.node.name
      color := lang.node.color
      size := jsDiv lang.size (repoTotalSize repo)
      repo_name := repo.name })

/-- The `topLangs` computation: repositories with an empty `languages.edges`
list are dropped, the rest are normalized per repository. -/
def topLangsOf (repoNodes : List RepoNode) : List (List NormShare) :=
  (repoNodes.filter (fun repo => repo.edges.length != 0)).map normalizeRepo

/-- `fetchTopLanguages`, with the upstream response passed explicitly.
The first `if (res.data.errors)` block throws a plain
`Error(res.data.errors[0].message || "Could not fetch user")`; the second
block (the one that distinguishes `NOT_FOUND` via `CustomError`) repeats the
same condition and is therefore unreachable, so it does not appear in the
else-branch below.  The `exclude_repo` parameter populates a `repoToHide`
map in the source that the repository filter never consults, so it does not
influence the result. -/
def fetchTopLanguages (username : String) (exclude_repo : List String)
    (res : GqlResponse) : Except FetchError (List (List NormShare)) :=
  if username = "" then Except.error (FetchError.missingParam ["username"])
  else
    match res.errors with
    | some errs =>
      match errs.head? with
      | some e =>
        Except.error (FetchError.generic
          (if e.message = "" then "Could not fetch user" else e.message))
      | none => Except.error FetchError.runtime
    | none =>
      let repoToHide := exclude_repo
      Except.ok (topLangsOf res.nodes)

/-! ### Helper lemmas about sums -/

theorem foldl_add_eq_sum (l : List ℚ) (a : ℚ) :
    l.foldl (· + ·) a = a + l.sum := by
  induction l generalizing a with
  | nil => simp
  | cons x xs ih =>
    simp only [List.foldl_cons, List.sum_cons, ih]
    ring

theorem all_zero_of_sum_zero (l : List ℚ) (hnn : ∀ x ∈ l, 0 ≤ x)
    (hz : l.sum = 0) : ∀ x ∈ l, x = 0 := by
  induction l with
  | nil => intro x hx; cases hx
  | cons y ys ih =>
    have hy : 0 ≤ y := hnn y (List.mem_cons_self y ys)
    have hys : 0 ≤ ys.sum :=
      List.sum_nonneg (fun x hx => hnn x (List.mem_cons_of_mem y hx))
    have hsum : y + ys.sum = 0 := by simpa using hz
    have hy0 : y = 0 := by linarith
    have hys0 : ys.sum = 0 := by linarith
    intro x hx
    rcases List.mem_cons.mp hx with rfl | hx
    · exact hy0
    · exact ih (fun z hz => hnn z (List.mem_cons_of_mem y hz)) hys0 x hx

/-! ### C1: zero-total repositories -/

/-- A repository with one language of size `0`: its non-empty language list
sums to zero bytes. -/
def zeroRepo : RepoNode :=
  { name := "r"
    edges := [{ size := 0, node := { color := "#f1e05a", name := "JavaScript" } }] }

/-- C1 counterexample: for the zero-total repository `zeroRepo`, the
normalization step of `fetchTopLanguages` produces the non-finite value
`NaN` (`0 / 0` is unguarded), not the share `0` the claim asserts. -/
theorem zero_total_share_is_nan_not_zero :
    topLangsOf [zeroRepo] =
      [[{ name := "JavaScript", color := "#f1e05a", size := JSNum.nan,
          repo_name := "r" }]]
    ∧ JSNum.nan ≠ JSNum.num 0 := by
  constructor
  · simp only [topLangsOf, zeroRepo, normalizeRepo, repoTotalSize, jsDiv,
      List.filter, List.map]
    norm_num
  · intro h
    cases h

/-- C1 (amended): for every repository whose language list is non-empty, whose
byte sizes are nonnegative and sum to zero, the normalization step of
`fetchTopLanguages` produces the share `NaN` (the result of the unguarded
division `0 / 0`) for each of that repository's languages — not `0`. -/
theorem normalizeRepo_zero_total_all_nan (repo : RepoNode)
    (hne : repo.edges ≠ [])
    (hnn : ∀ e ∈ repo.edges, 0 ≤ e.size)
    (hzero : repoTotalSize repo = 0) :
    ∀ share ∈ normalizeRepo repo, share.size = JSNum.nan := by
  intro share hshare
  have hsum : (repo.edges.map (fun lang => lang.size)).sum = 0 := by
    have := foldl_add_eq_sum (repo.edges.map (fun lang => lang.size)) 0
    unfold repoTotalSize at hzero
    rw [this] at hzero
    linarith
  have hall : ∀ e ∈ repo.edges, e.size = 0 := by
    intro e he
    exact all_zero_of_sum_zero (repo.edges.map (fun lang => lang.size))
      (by
        intro x hx
        rcases List.mem_map.mp hx with ⟨e, he, rfl⟩
        exact hnn e he)
      hsum e.size (List.mem_map.mpr ⟨e, he, rfl⟩)
  rcases List.mem_map.mp hshare with ⟨e, he, rfl⟩
  show jsDiv e.size (repoTotalSize repo) = JSNum.nan
  rw [hall e he, hzero]
  simp [jsDiv]

/-- Witness for C1 (amended) at the concrete zero-total repository. -/
theorem normalizeRepo_zero_total_all_nan_witness :
    zeroRepo.edges ≠ [] ∧
    ∀ share ∈ normalizeRepo zeroRepo, share.size = JSNum.nan := by
  refine ⟨by simp [zeroRepo], ?_⟩
  exact normalizeRepo_zero_total_all_nan zeroRepo (by simp [zeroRepo])
    (by
      intro e he
      simp only [zeroRepo, List.mem_singleton] at he
      rw [he])
    (by simp [repoTotalSize, zeroRepo])

/-! ### C2: NOT_FOUND handling -/

/-- C2 (code divergence): when the upstream response reports a `NOT_FOUND`
error, `fetchTopLanguages` raises the generic error (the first
`if (res.data.errors)` block throws a plain `Error`), never the typed
user-not-found condition — the `CustomError.USER_NOT_FOUND` branch is dead
code.  It also never proceeds to aggregation: the result is an error, not a
language list. -/
theorem fetchTopLanguages_not_found_generic_error (username msg : String)
    (rest : List GqlError) (excl : List String) (nodes : List RepoNode)
    (h : username ≠ "") :
    fetchTopLanguages username excl
        { errors := some ({ type := "NOT_FOUND", message := msg } :: rest)
          nodes := nodes }
      = Except.error (FetchError.generic
          (if msg = "" then "Could not fetch user" else msg))
    ∧ ∀ m : String,
        fetchTopLanguages username excl
            { errors := some ({ type := "NOT_FOUND", message := msg } :: rest)
              nodes := nodes }
          ≠ Except.error (FetchError.userNotFound m) := by
  constructor
  · simp only [fetchTopLanguages, if_neg h]
    rfl
  · intro m hEq
    simp only [fetchTopLanguages, if_neg h] at hEq
    simp at hEq

/-- Witness for C2 at a concrete `NOT_FOUND` response. -/
theorem fetchTopLanguages_not_found_generic_error_witness :
    ("anuraghazra" : String) ≠ "" ∧
    fetchTopLanguages "anuraghazra" []
        { errors := some
            [{ type := "NOT_FOUND", message := "Could not resolve to a User" }]
          nodes := [] }
      = Except.error (FetchError.generic "Could not resolve to a User") := by
  have h : ("anuraghazra" : String) ≠ "" := by decide
  refine ⟨h, ?_⟩
  have := fetchTopLanguages_not_found_generic_error "anuraghazra"
    "Could not resolve to a User" [] [] [] h
  simpa using this.1

/-! ### C7: shares sum to one -/

theorem jsSum_div_aux (t : ℚ) (ht : t ≠ 0) (l : List ℚ) (a : ℚ) :
    (l.map (fun s => jsDiv s t)).foldl jsAdd (JSNum.num a)
      = JSNum.num (a + l.sum / t) := by
  induction l generalizing a with
  | nil => simp
  | cons x xs ih =>
    simp only [List.map_cons, List.foldl_cons, List.sum_cons]
    have hx : jsDiv x t = JSNum.num (x / t) := by
      unfold jsDiv
      rw [if_neg ht]
    rw [hx]
    show (xs.map (fun s => jsDiv s t)).foldl jsAdd (JSNum.num (a + x / t))
      = JSNum.num (a + (x + xs.sum) / t)
    rw [ih (a + x / t)]
    congr 1
    field_simp
    ring

/-- C7: for every repository with a non-empty language list and positive
total byte size, the within-repository shares produced by the normalization
step of `fetchTopLanguages` sum to exactly `1` in exact arithmetic. -/
theorem normalizeRepo_shares_sum_one (repo : RepoNode)
    (hne : repo.edges ≠ [])
    (hpos : 0 < repoTotalSize repo) :
    jsSum ((normalizeRepo repo).map (fun share => share.size)) = JSNum.num 1 := by
  have hfold : repoTotalSize repo = (repo.edges.map (fun lang => lang.size)).sum := by
    unfold repoTotalSize
    rw [foldl_add_eq_sum]; ring
  have ht : repoTotalSize repo ≠ 0 := ne_of_gt hpos
  have hmap : (normalizeRepo repo).map (fun share => share.size)
      = (repo.edges.map (fun lang => lang.size)).map
          (fun s => jsDiv s (repoTotalSize repo)) := by
    unfold normalizeRepo
    simp [List.map_map, Function.comp]
  rw [hmap]
  unfold jsSum
  rw [jsSum_div_aux (repoTotalSize repo) ht]
  rw [← hfold]
  congr 1
  rw [div_self ht]
  ring

/-- Witness for C7 at a repository with byte sizes 80 and 20. -/
theorem normalizeRepo_shares_sum_one_witness :
    (({ name := "alpha",
        edges := [{ size := 80, node := { color := "#f1e05a", name := "JS" } },
                  { size := 20, node := { color := "#2b7489", name := "TS" } }] }
      : RepoNode).edges ≠ []) ∧
    jsSum ((normalizeRepo
        { name := "alpha",
          edges := [{ size := 80, node := { color := "#f1e05a", name := "JS" } },
                    { size := 20, node := { color := "#2b7489", name := "TS" } }] }).map
      (fun share => share.size)) = JSNum.num 1 := by
  refine ⟨by simp, ?_⟩
  exact normalizeRepo_shares_sum_one _ (by simp)
    (by norm_num [repoTotalSize])

/-! ### The top-languages card (`src/cards/top-languages-card.js`) -/

/-- A language record consumed by the card: `{ name, color, size, repo_name }`.
`size` is a within-repository share (a finite rational here); a missing
`color` or `name` is modelled as the empty string (falsy). -/
structure Lang where
  name : String
  color : String
  size : ℚ
  repo_name : String
deriving DecidableEq

def DEFAULT_CARD_WIDTH : ℤ := 300

def MIN_CARD_WIDTH : ℤ := 230

def DEFAULT_LANGS_COUNT : ℤ := 5

def DEFAULT_LANG_COLOR : String := "#858585"

def CARD_PADDING : ℤ := 25

/-- Modelled from the spec: `clampValue` from `src/common/utils.js` (not under
`src/`) clamps a value to a range — `count` clamped to `[1, 10]` uses it. -/
def clampValue (number lower upper : ℤ) : ℤ :=
  max lower (min number upper)

/-- ASCII lowercasing of one character. -/
def lowerChar (c : Char) : Char :=
  if 'A' ≤ c ∧ c ≤ 'Z' then Char.ofNat (c.toNat + 32) else c

/-- Whether a character is trimmable whitespace. -/
def isWhitespaceChar (c : Char) : Bool :=
  c == ' ' || c == '\t' || c == '\n' || c == '\r'

/-- Modelled from the spec: `lowercaseTrim` from `src/common/utils.js` (not
under `src/`) — hide-list entries are matched case-insensitively and
whitespace-trimmed against language names.  Implemented over the character
list so that it evaluates by reduction. -/
def lowercaseTrim (name : String) : String :=
  let lowered := name.data.map lowerChar
  String.mk
    (((lowered.dropWhile isWhitespaceChar).reverse.dropWhile
      isWhitespaceChar).reverse)

/-- Modelled from the spec: `measureText(text, fontSize) -> pixelWidth` from
`src/common/utils.js` (not under `src/`) is treated as a pure black-box text
width function; a concrete executable choice is made here. -/
def measureText (text : String) (fontSize : ℚ) : ℚ :=
  fontSize * text.length

/-- The comparator `(a, b) => b.size - a.size`: `a` may stay before `b`
exactly when `b.size ≤ a.size`. -/
def sizeGe (a b : Lang) : Prop :=
  b.size ≤ a.size

instance : DecidableRel sizeGe :=
  fun a b => inferInstanceAs (Decidable (b.size ≤ a.size))

instance : IsTotal Lang sizeGe :=
  ⟨fun a b => le_total b.size a.size⟩

instance : IsTrans Lang sizeGe :=
  ⟨fun _ _ _ h1 h2 => le_trans h2 h1⟩

/-- `.sort((a, b) => b.size - a.size)`: a stable sort by decreasing `size`
(ECMAScript `Array.prototype.sort` is required to be stable), modelled as
stable insertion sort. -/
def sortLangsDesc (langs : List Lang) : List Lang :=
  langs.insertionSort sizeGe

/-- Whether `lang` is in the `langsToHide` lookup map built from `hide`. -/
def hiddenIn (langsToHide : List String) (lang : Lang) : Bool :=
  langsToHide.contains (lowercaseTrim lang.name)

/-- `useLanguages(topLangs, hide, langs_count)`: sorts by decreasing size,
filters out hidden languages, then truncates to the clamped count.
`topLangs` stands for `Object.values(topLangs)` and `langs_count` for
`parseInt(langs_count)`. -/
def useLanguages (topLangs : List Lang) (hide : List String)
    (langs_count : ℤ) : List Lang × ℚ :=
  let langsCount := clampValue langs_count 1 10
  let langsToHide := hide.map lowercaseTrim
  let langs := (((sortLangsDesc topLangs).filter
      (fun lang => !(hiddenIn langsToHide lang))).take langsCount.toNat)
  let totalLanguageSize := langs.foldl (fun acc curr => acc + curr.size) 0
  (langs, totalLanguageSize)

/-- One step of the merge pass of `renderTopLanguages` when the entry is not
skipped: add the share to the first exact `(name, color)` match, or push a
clone of the record at the end. -/
def addShare (lang : Lang) : List Lang → List Lang
  | [] => [lang]
  | x :: xs =>
    if x.color = lang.color ∧ x.name = lang.name then
      { x with size := x.size + lang.size } :: xs
    else
      x :: addShare lang xs

/-- One step of the merge pass of `renderTopLanguages`: records with a
missing (falsy) `color` or `name` are skipped. -/
def mergeLang (acc : List Lang) (lang : Lang) : List Lang :=
  if lang.color = "" ∨ lang.name = "" then acc
  else addShare lang acc

/-- The full merge pass (`allUniqueLangs`) of `renderTopLanguages`: the
nested `forEach` over repositories and their languages. -/
def allUniqueLangs (langs : List (List Lang)) : List Lang :=
  langs.foldl (fun acc langsInRepo => langsInRepo.foldl mergeLang acc) []

/-- `calculateCompactLayoutHeight(totalLangs) = 90 + Math.round(totalLangs / 2) * 19`. -/
def calculateCompactLayoutHeight (totalLangs : ℕ) : ℤ :=
  90 + jsRound ((totalLangs : ℚ) / 2) * 19

/-- `calculateNormalLayoutHeight(totalLangs) = 45 + (totalLangs + 1) * 40`. -/
def calculateNormalLayoutHeight (totalLangs : ℕ) : ℤ :=
  45 + ((totalLangs : ℤ) + 1) * 40

/-- One stacked segment of the compact progress bar, as computed inside the
`.map` of `renderCompactLayout`: `preWidth` is
`parseFloat((lang.size * offsetWidth).toFixed(2))` (the value also added to
the running `progressOffset`), `width` is the rendered `progress`, and `x`
is the `progressOffset` at which the segment is placed. -/
structure Segment where
  x : ℚ
  preWidth : ℚ
  width : ℚ
  color : String
  repo_name : String
deriving DecidableEq

/-- The segments of `renderCompactLayout`, carrying the running
`progressOffset`. -/
def compactSegmentsAux (width : ℚ) : List Lang → ℚ → List Segment
  | [], _ => []
  | lang :: rest, offset =>
    let percentage := round2 (lang.size * width)
    let progress := if percentage < 10 then percentage + 10 else percentage
    { x := offset
      preWidth := percentage
      width := progress
      color := lang.color
      repo_name := lang.repo_name } :: compactSegmentsAux width rest (offset + percentage)

/-- The segments of `renderCompactLayout`, starting from `progressOffset = 0`. -/
def compactSegments (langs : List Lang) (width : ℚ) : List Segment :=
  compactSegmentsAux width langs 0

/-! ### String rendering

Markup is produced as strings, as in the source; surrounding whitespace of
the template literals is not reproduced byte for byte.  Numbers occurring in
the markup of this card are integers or multiples of `1/100`; `jsNumStr`
renders them the way JavaScript string interpolation would. -/

def pad2 (n : ℕ) : String :=
  if n < 10 then "0" ++ toString n else toString n

/-- The string `x.toFixed(2)` for a finite nonnegative `x`. -/
def toFixed2 (q : ℚ) : String :=
  let n : ℤ := jsRound (q * 100)
  let a := n.natAbs
  (if n < 0 then "-" else "") ++ toString (a / 100) ++ "." ++ pad2 (a % 100)

/-- Decimal rendering of the JavaScript numbers interpolated into this card's
markup (integers and two-decimal values, trailing zeros stripped). -/
def jsNumStr (q : ℚ) : String :=
  if q.den = 1 then toString q.num
  else
    let n : ℤ := jsRound (q * 100)
    let a := n.natAbs
    let frac := a % 100
    (if n < 0 then "-" else "") ++ toString (a / 100) ++ "." ++
      (if frac % 10 = 0 then toString (frac / 10) else pad2 frac)

/-- Modelled from the spec: the flex-layout primitive from
`src/common/utils.js` (not under `src/`) wraps each pre-rendered item in a
positional transform offset by the accumulated gap (row accumulates `x`,
column accumulates `y`); the callers in this card pass no item sizes. -/
def flexLayout (items : List String) (gap : ℚ) (direction : Option String) :
    List String :=
  (items.enum).map (fun p =>
    let gapValue := gap * (p.1 : ℚ)
    let transform := if direction = some "column"
      then "translate(0, " ++ jsNumStr gapValue ++ ")"
      else "translate(" ++ jsNumStr gapValue ++ ", 0)"
    "<g transform=\"" ++ transform ++ "\">" ++ p.2 ++ "</g>")

/-- `getLongestLang`: `reduce` keeping the language with the longest name.
The source's initial accumulator has `size: null`; `null` behaves as `0` in
the later `longestLang.size * 100`, so it is modelled as `0`. -/
def getLongestLang (arr : List Lang) : Lang :=
  arr.foldl (fun savedLang lang =>
    if lang.name.length > savedLang.name.length then lang else savedLang)
    { name := "", size := 0, color := "", repo_name := "" }

/-- `createCompactLangNode`: a colored dot plus the language name. -/
def createCompactLangNode (lang : Lang) : String :=
  let color := if lang.color = "" then "#858585" else lang.color
  "<g><circle cx=\"5\" cy=\"6\" r=\"5\" fill=\"" ++ color ++
    "\" /><text data-testid=\"lang-name\" x=\"15\" y=\"10\" class=\x27lang-name\x27>" ++
    lang.name ++ "</text></g>"

/-- `createLanguageTextNode`: the compact-mode legend column.  The source
also computes `chunkArray(langs, langs.length / 2)` into a variable that is
never used; that dead computation is omitted. -/
def createLanguageTextNode (langs : List Lang) : String :=
  let longestLang := getLongestLang langs
  let items := langs.map createCompactLangNode
  let layout := String.join (flexLayout items 25 (some "column"))
  let percent := toFixed2 (longestLang.size * 100)
  let minGap : ℚ := 150
  let maxGap := 20 + measureText (longestLang.name ++ " " ++ percent ++ "%") 11
  String.join (flexLayout [layout] (if maxGap < minGap then minGap else maxGap) none)

/-- Modelled from the spec: `createProgressNode` from
`src/common/createProgressNode.js` (not under `src/`) renders a horizontal
progress bar from its position, width, color and percentage. -/
def createProgressNode (x y : ℚ) (color : String) (width : ℚ)
    (progress : String) (progressBarBackgroundColor : String) : String :=
  "<g data-testid=\"progress\" transform=\"translate(" ++ jsNumStr x ++ ", " ++
    jsNumStr y ++ ")\"><rect width=\"" ++ jsNumStr width ++ "\" fill=\"" ++
    progressBarBackgroundColor ++ "\" /><rect data-progress=\"" ++ progress ++
    "\" fill=\"" ++ color ++ "\" /></g>"

/-- `createProgressTextNode`: one normal-layout row (name, percentage label,
progress bar). -/
def createProgressTextNode (width : ℤ) (color : String) (name : String)
    (progress : String) : String :=
  let paddingRight : ℤ := 95
  let progressTextX := width - paddingRight + 10
  let progressWidth := width - paddingRight
  "<text data-testid=\"lang-name\" x=\"2\" y=\"15\" class=\"lang-name\">" ++
    name ++ "</text><text x=\"" ++ toString progressTextX ++
    "\" y=\"34\" class=\"lang-name\">" ++ progress ++ "%</text>" ++
    createProgressNode 0 25 color (progressWidth : ℚ) progress "#ddd"

/-- `renderNormalLayout`: one row per selected language.  (The percentage is
`(lang.size / totalLanguageSize) * 100`; rational division by a zero total
yields `0` here where JavaScript would yield `NaN` — no claim depends on that
corner.) -/
def renderNormalLayout (langs : List Lang) (width : ℤ)
    (totalLanguageSize : ℚ) : String :=
  String.join (flexLayout (langs.map (fun lang =>
    createProgressTextNode width
      (if lang.color = "" then DEFAULT_LANG_COLOR else lang.color)
      lang.name
      (toFixed2 ((lang.size / totalLanguageSize) * 100)))) 40 (some "column"))

/-- The markup of one compact-bar segment. -/
def segmentNode (username : String) (seg : Segment) : String :=
  let fill := if seg.color = "" then "#858585" else seg.color
  "<a href=\"https://github.com/" ++ username ++ "/" ++ seg.repo_name ++
    "\"><rect mask=\"url(#rect-mask)\" data-testid=\"lang-progress\" x=\"" ++
    jsNumStr seg.x ++ "\" y=\"0\" width=\"" ++ jsNumStr seg.width ++
    "\" height=\"8\" fill=\"" ++ fill ++ "\" /></a>"

/-- `renderCompactLayout`: the stacked one-strip bar for one repository,
clipped by a rounded-rectangle mask of the full card width. -/
def renderCompactLayout (langs : List Lang) (width : ℚ)
    (username : String) : String :=
  let offsetWidth := width
  let compactProgressBar :=
    String.join ((compactSegments langs offsetWidth).map (segmentNode username))
  "<mask id=\"rect-mask\"><rect x=\"0\" y=\"0\" width=\"" ++
    jsNumStr offsetWidth ++
    "\" height=\"8\" fill=\"white\" rx=\"5\" /></mask>" ++ compactProgressBar

/-! ### The card shell and `renderTopLanguages` -/

structure CardColors where
  titleColor : String
  textColor : String
  bgColor : String
  borderColor : String
deriving DecidableEq

/-- Modelled from the spec: `getCardColors` from `src/common/utils.js` (not
under `src/`) returns theme-based colors with proper overrides and
defaults. -/
def getCardColors (title_color text_color bg_color border_color theme :
    Option String) : CardColors :=
  let themeName := theme.getD "default"
  { titleColor := title_color.getD ("title-" ++ themeName)
    textColor := text_color.getD ("text-" ++ themeName)
    bgColor := bg_color.getD ("bg-" ++ themeName)
    borderColor := border_color.getD ("border-" ++ themeName) }

/-- Modelled from the spec: the internationalized lookup
`i18n.t("langcard.title")` for a locale. -/
def langCardTitle (locale : Option String) : String :=
  "langcard.title." ++ locale.getD "en"

/-- Modelled from the spec: the external Card shell (`src/common/Card.js`,
not under `src/`), holding title, dimensions, radius, colors, the
hide-border/hide-title toggles, CSS and the animation toggle. -/
structure Card where
  customTitle : Option String
  defaultTitle : String
  width : ℤ
  height : ℤ
  border_radius : Option ℚ
  colors : CardColors
  hideBorder : Bool
  hideTitle : Bool
  css : String
  animations : Bool
deriving DecidableEq

/-- Modelled from the spec: `Card.render` wraps the body markup with border,
title, background theme and animation toggles. -/
def Card.render (card : Card) (body : String) : String :=
  "<svg width=\"" ++ toString card.width ++ "\" height=\"" ++
    toString card.height ++ "\" radius=\"" ++
    (match card.border_radius with
      | some r => jsNumStr r
      | none => "4.5") ++
    "\" bg=\"" ++ card.colors.bgColor ++ "\" border=\"" ++
    card.colors.borderColor ++ "\" title-color=\"" ++
    card.colors.titleColor ++ "\" hide-border=\"" ++
    (if card.hideBorder then "1" else "0") ++ "\" hide-title=\"" ++
    (if card.hideTitle then "1" else "0") ++ "\" animations=\"" ++
    (if card.animations then "1" else "0") ++ "\" title=\"" ++
    card.customTitle.getD card.defaultTitle ++ "\"><style>" ++ card.css ++
    "</style>" ++ body ++ "</svg>"

/-- The options destructured by `renderTopLanguages`. -/
structure TopLangOptions where
  hide_title : Bool := false
  hide_border : Bool := false
  card_width : Option ℤ := none
  title_color : Option String := none
  text_color : Option String := none
  bg_color : Option String := none
  hide : Option (List String) := none
  theme : Option String := none
  layout : Option String := none
  custom_title : Option String := none
  locale : Option String := none
  langs_count : ℤ := DEFAULT_LANGS_COUNT
  border_radius : Option ℚ := none
  border_color : Option String := none
deriving DecidableEq

/-- The card's CSS rule (`.lang-name`) with the resolved text color. -/
def langCardCss (textColor : String) : String :=
  ".lang-name \x7b font: 400 11px \x27Segoe UI\x27, Ubuntu, Sans-Serif; fill: " ++
    textColor ++ " \x7d"

/-- One `<svg data-testid="lang-items">` wrapper of the body, offset
vertically by `idx * 10`. -/
def bodyItemSvg (idx : ℕ) (barWidth : ℤ) (layoutStr : String) : String :=
  "<svg data-testid=\"lang-items\" x=\"" ++ toString CARD_PADDING ++
    "\" y=\"" ++ toString (idx * 10) ++ "\" width=\"" ++ toString barWidth ++
    "\" height=\"8\">" ++ layoutStr ++ "</svg> "

/-- The computation of `renderTopLanguages` up to the final
`card.render(body)`: the resolved bar width (`isNaN(card_width)` covers both
an absent and a non-numeric width, modelled as `none`), the compact height,
the merge pass, its size-descending sort, the legend, the per-repository
compact strips, the colors and the assembled body.  The destructured options
`hide`, `langs_count` and `layout` are never read past destructuring in the
source, and correspondingly are not read here. -/
def renderTopLanguagesCard (topLangs : List (List Lang)) (username : String)
    (options : TopLangOptions) : Card × String :=
  let langs := topLangs
  let bar_width : ℤ :=
    match options.card_width with
    | none => DEFAULT_CARD_WIDTH
    | some w => if w < MIN_CARD_WIDTH then MIN_CARD_WIDTH else w
  let height := calculateCompactLayoutHeight langs.length
  let merged := sortLangsDesc (allUniqueLangs langs)
  let legend := createLanguageTextNode merged
  let layouts := langs.map (fun lang =>
    renderCompactLayout lang (bar_width : ℚ) username)
  let colors := getCardColors options.title_color options.text_color
    options.bg_color options.border_color options.theme
  let card : Card :=
    { customTitle := options.custom_title
      defaultTitle := langCardTitle options.locale
      width := 480
      height := height
      border_radius := options.border_radius
      colors := colors
      hideBorder := options.hide_border
      hideTitle := options.hide_title
      css := langCardCss colors.textColor
      animations := false }
  let legendX := CARD_PADDING + DEFAULT_CARD_WIDTH + 20
  let body :=
    String.intercalate "\n"
        ((layouts.enum).map (fun p => bodyItemSvg p.1 bar_width p.2)) ++
      "<svg data-testid=\"lang-items\" x=\"" ++ toString legendX ++ "\">" ++
      legend ++ "</svg> "
  (card, body)

/-- `renderTopLanguages(topLangs, username, options)`. -/
def renderTopLanguages (topLangs : List (List Lang)) (username : String)
    (options : TopLangOptions) : String :=
  (renderTopLanguagesCard topLangs username options).1.render
    (renderTopLanguagesCard topLangs username options).2

/-! ### C3: options that have no effect -/

/-- C3: for every fixed `topLangs` and `username`, two runs of
`renderTopLanguages` that differ only in the `hide`, `langs_count` and/or
`layout` options produce identical output markup and identical card height:
those three options are destructured but never read, and neither
`useLanguages` nor `renderNormalLayout` is invoked from
`renderTopLanguages`. -/
theorem renderTopLanguages_ignores_hide_count_layout
    (topLangs : List (List Lang)) (username : String)
    (options : TopLangOptions) (hide : Option (List String))
    (langs_count : ℤ) (layout : Option String) :
    renderTopLanguages topLangs username
        { options with hide := hide, langs_count := langs_count,
                       layout := layout }
      = renderTopLanguages topLangs username options
    ∧ (renderTopLanguagesCard topLangs username
        { options with hide := hide, langs_count := langs_count,
                       layout := layout }).1.height
      = (renderTopLanguagesCard topLangs username options).1.height :=
  ⟨rfl, rfl⟩

/-! ### C4: count bound and hide exclusion -/

/-- C4: `useLanguages` returns at most `clamp(count, 1, 10)` entries, and no
returned entry's name, lowercased and trimmed, matches any hide-list entry
lowercased and trimmed. -/
theorem useLanguages_count_bound_and_hide_excluded
    (topLangs : List Lang) (hide : List String) (langs_count : ℤ) :
    (useLanguages topLangs hide langs_count).1.length
        ≤ (clampValue langs_count 1 10).toNat
    ∧ ∀ lang ∈ (useLanguages topLangs hide langs_count).1,
        (hide.map lowercaseTrim).contains (lowercaseTrim lang.name) = false := by
  constructor
  · simpa [useLanguages] using
      List.length_take_le (clampValue langs_count 1 10).toNat _
  · intro lang hmem
    simp only [useLanguages] at hmem
    have h1 := List.mem_of_mem_take hmem
    have h2 := List.of_mem_filter h1
    simpa [hiddenIn] using h2

/-! ### C8: height formulas -/

theorem jsRound_nat_half (r : ℕ) :
    jsRound ((r : ℚ) / 2) = (((r + 1) / 2 : ℕ) : ℤ) := by
  unfold jsRound
  rcases Nat.even_or_odd r with ⟨k, hk⟩ | ⟨k, hk⟩ <;> subst hk
  · have h2 : ((k + k + 1) / 2 : ℕ) = k := by omega
    rw [h2]
    have h1 : ((k + k : ℕ) : ℚ) / 2 + 1 / 2 = (k : ℚ) + 1 / 2 := by
      push_cast; ring
    rw [h1, Int.floor_eq_iff] <;> constructor <;> push_cast <;> norm_num
  · have h2 : ((2 * k + 1 + 1) / 2 : ℕ) = k + 1 := by omega
    rw [h2]
    have h1 : ((2 * k + 1 : ℕ) : ℚ) / 2 + 1 / 2 = ((k + 1 : ℤ) : ℚ) := by
      push_cast; ring
    rw [h1, Int.floor_intCast]
    push_cast
    ring

/-- C8: `calculateNormalLayoutHeight(n) = 45 + (n + 1) * 40`,
`calculateCompactLayoutHeight(r) = 90 + round(r / 2) * 19` (evaluated in
closed form), and the height `renderTopLanguages` passes to the card shell
is the compact formula applied to the number of repositories in its
input. -/
theorem layout_height_formulas (n r : ℕ) (topLangs : List (List Lang))
    (username : String) (options : TopLangOptions) :
    calculateNormalLayoutHeight n = 45 + ((n : ℤ) + 1) * 40
    ∧ calculateCompactLayoutHeight r = 90 + (((r + 1) / 2 : ℕ) : ℤ) * 19
    ∧ (renderTopLanguagesCard topLangs username options).1.height
        = calculateCompactLayoutHeight topLangs.length := by
  refine ⟨rfl, ?_, rfl⟩
  unfold calculateCompactLayoutHeight
  rw [jsRound_nat_half]

/-! ### C6: the merge pass -/

theorem addShare_found (lang : Lang) :
    ∀ (front : List Lang) (x : Lang) (back : List Lang),
      (∀ y ∈ front, ¬(y.color = lang.color ∧ y.name = lang.name)) →
      (x.color = lang.color ∧ x.name = lang.name) →
      addShare lang (front ++ x :: back)
        = front ++ { x with size := x.size + lang.size } :: back := by
  intro front
  induction front with
  | nil =>
    intro x back _ hx
    simp [addShare, hx]
  | cons y ys ih =>
    intro x back hno hx
    have hy : ¬(y.color = lang.color ∧ y.name = lang.name) :=
      hno y (List.mem_cons_self y ys)
    simp only [List.cons_append, addShare, if_neg hy]
    exact congrArg (fun t => y :: t)
      (ih x back (fun z hz => hno z (List.mem_cons_of_mem y hz)) hx)

theorem addShare_not_found (lang : Lang) :
    ∀ acc : List Lang,
      (∀ y ∈ acc, ¬(y.color = lang.color ∧ y.name = lang.name)) →
      addShare lang acc = acc ++ [lang] := by
  intro acc
  induction acc with
  | nil => intro _; simp [addShare]
  | cons y ys ih =>
    intro hno
    have hy : ¬(y.color = lang.color ∧ y.name = lang.name) :=
      hno y (List.mem_cons_self y ys)
    simp only [List.cons_append, addShare, if_neg hy]
    exact congrArg (fun t => y :: t)
      (ih (fun z hz => hno z (List.mem_cons_of_mem y hz)))

/-- C6: the merge pass of `renderTopLanguages` (i) skips every record with a
missing name or missing color; (ii) on a record with both present, it adds
the share to the first entry matching in both name and color exactly, if
one exists (so a same-named language with a different color is not
coalesced); (iii) if no entry matches in both, it appends a copy of the
record (value-identical to the source record). -/
theorem mergeLang_spec (acc : List Lang) (lang : Lang) :
    ((lang.color = "" ∨ lang.name = "") → mergeLang acc lang = acc)
    ∧ (lang.color ≠ "" → lang.name ≠ "" →
        (∀ (front : List Lang) (x : Lang) (back : List Lang),
          acc = front ++ x :: back →
          (∀ y ∈ front, ¬(y.color = lang.color ∧ y.name = lang.name)) →
          (x.color = lang.color ∧ x.name = lang.name) →
          mergeLang acc lang
            = front ++ { x with size := x.size + lang.size } :: back)
        ∧ ((∀ y ∈ acc, ¬(y.color = lang.color ∧ y.name = lang.name)) →
          mergeLang acc lang = acc ++ [lang])) := by
  constructor
  · intro h
    simp [mergeLang, h]
  · intro hc hn
    have hskip : ¬(lang.color = "" ∨ lang.name = "") := by
      intro h
      rcases h with h | h
      · exact hc h
      · exact hn h
    constructor
    · intro front x back hacc hno hx
      rw [mergeLang, if_neg hskip, hacc]
      exact addShare_found lang front x back hno hx
    · intro hno
      rw [mergeLang, if_neg hskip]
      exact addShare_not_found lang acc hno

/-! ### C10: aggregation commutative in repository order -/

/-- The total accumulated size the merge output assigns to one exact
`(name, color)` key. -/
def keySize (name color : String) (acc : List Lang) : ℚ :=
  ((acc.filter (fun x => x.name == name && x.color == color)).map
    (fun x => x.size)).sum

/-- The contribution of one language record to a `(name, color)` key:
its share when it carries that exact key and is not skipped, `0`
otherwise. -/
def contribution (name color : String) (lang : Lang) : ℚ :=
  if ¬(lang.color = "" ∨ lang.name = "") ∧ lang.name = name ∧ lang.color = color
  then lang.size else 0

theorem keySize_cons (name color : String) (z : Lang) (l : List Lang) :
    keySize name color (z :: l)
      = (if z.name = name ∧ z.color = color then z.size else 0)
        + keySize name color l := by
  by_cases hz : z.name = name ∧ z.color = color
  · simp [keySize, List.filter_cons, hz.1, hz.2, if_pos hz]
  · rw [if_neg hz]
    have : (z.name == name && z.color == color) = false := by
      rcases not_and_or.mp hz with h | h <;> simp [h]
    simp [keySize, List.filter_cons, this]

theorem keySize_addShare (name color : String) (lang : Lang)
    (acc : List Lang) :
    keySize name color (addShare lang acc)
      = keySize name color acc
        + (if lang.name = name ∧ lang.color = color then lang.size else 0) := by
  induction acc with
  | nil =>
    rw [addShare]
    rw [keySize_cons]
    by_cases h : lang.name = name ∧ lang.color = color <;>
      simp [keySize, h]
  | cons y ys ih =>
    rw [addShare]
    by_cases hmatch : y.color = lang.color ∧ y.name = lang.name
    · rw [if_pos hmatch, keySize_cons, keySize_cons]
      by_cases hy : y.name = name ∧ y.color = color
      · have hz : ({ y with size := y.size + lang.size } : Lang).name = name
            ∧ ({ y with size := y.size + lang.size } : Lang).color = color := hy
        have hlang : lang.name = name ∧ lang.color = color :=
          ⟨hmatch.2 ▸ hy.1, hmatch.1 ▸ hy.2⟩
        rw [if_pos hz, if_pos hy, if_pos hlang]
        dsimp only
        ring
      · have hz : ¬(({ y with size := y.size + lang.size } : Lang).name = name
            ∧ ({ y with size := y.size + lang.size } : Lang).color = color) := hy
        have hlang : ¬(lang.name = name ∧ lang.color = color) := by
          intro hl
          exact hy ⟨hmatch.2.trans hl.1, hmatch.1.trans hl.2⟩
        rw [if_neg hz, if_neg hy, if_neg hlang]
        ring
    · rw [if_neg hmatch, keySize_cons, keySize_cons, ih]
      ring

theorem keySize_mergeLang (name color : String) (acc : List Lang)
    (lang : Lang) :
    keySize name color (mergeLang acc lang)
      = keySize name color acc + contribution name color lang := by
  unfold mergeLang contribution
  by_cases hskip : lang.color = "" ∨ lang.name = ""
  · rw [if_pos hskip]
    have : ¬(¬(lang.color = "" ∨ lang.name = "")
        ∧ lang.name = name ∧ lang.color = color) := by
      intro h
      exact h.1 hskip
    rw [if_neg this]
    ring
  · rw [if_neg hskip, keySize_addShare]
    congr 1
    by_cases h : lang.name = name ∧ lang.color = color
    · rw [if_pos h, if_pos ⟨hskip, h⟩]
    · rw [if_neg h, if_neg (fun hh => h hh.2)]

theorem keySize_foldl_mergeLang (name color : String)
    (repoLangs : List Lang) :
    ∀ acc : List Lang,
      keySize name color (repoLangs.foldl mergeLang acc)
        = keySize name color acc
          + (repoLangs.map (contribution name color)).sum := by
  induction repoLangs with
  | nil => intro acc; simp
  | cons x xs ih =>
    intro acc
    simp only [List.foldl_cons, List.map_cons, List.sum_cons]
    rw [ih, keySize_mergeLang]
    ring

/-- C10: the merge pass is commutative in repository order — for any two
repositories `A` and `B`, merging `[A, B]` assigns to every exact
`(name, color)` key the same accumulated size as merging `[B, A]`. -/
theorem allUniqueLangs_comm (A B : List Lang) (name color : String) :
    keySize name color (allUniqueLangs [A, B])
      = keySize name color (allUniqueLangs [B, A]) := by
  have hnil : keySize name color [] = 0 := by simp [keySize]
  simp only [allUniqueLangs, List.foldl_cons, List.foldl_nil]
  rw [keySize_foldl_mergeLang, keySize_foldl_mergeLang,
    keySize_foldl_mergeLang, keySize_foldl_mergeLang, hnil]
  ring

def langA : Lang := { name := "JS", color := "#f1e05a", size := 4/5, repo_name := "alpha" }

def langB : Lang := { name := "TS", color := "#2b7489", size := 1/5, repo_name := "alpha" }

def langC : Lang := { name := "TS", color := "#2b7489", size := 1/2, repo_name := "beta" }

def langD : Lang := { name := "TS", color := "#000000", size := 1/2, repo_name := "beta" }

/-- Witness for C6: a record with missing color is skipped; a record matching
`langB` in both name and color accumulates into it; `langD`, sharing
`langB`'s name but not its color, is inserted as a separate entry. -/
theorem mergeLang_spec_witness :
    mergeLang [langA]
        { name := "Python", color := "", size := 1/2, repo_name := "r" }
      = [langA]
    ∧ mergeLang [langA, langB] langC
      = [langA, { langB with size := langB.size + langC.size }]
    ∧ mergeLang [langA, langB] langD
      = [langA, langB, langD] := by
  refine ⟨(mergeLang_spec [langA]
      { name := "Python", color := "", size := 1/2, repo_name := "r" }).1
      (Or.inl rfl), ?_, ?_⟩
  · have h := ((mergeLang_spec [langA, langB] langC).2
      (by decide) (by decide)).1 [langA] langB [] rfl (by decide) (by decide)
    simpa using h
  · have h := ((mergeLang_spec [langA, langB] langD).2
      (by decide) (by decide)).2 (by decide)
    simpa using h

/-! ### C5: hide before truncate -/

theorem orderedInsert_front (x : Lang) (m : List Lang)
    (h : ∀ z ∈ m, sizeGe x z) :
    List.orderedInsert sizeGe x m = x :: m := by
  cases m with
  | nil => rfl
  | cons z rest =>
    exact List.orderedInsert_of_le sizeGe rest (h z (List.mem_cons_self z rest))

theorem filter_orderedInsert_sorted (p : Lang → Bool) (x : Lang) :
    ∀ l : List Lang, List.Sorted sizeGe l →
      (List.orderedInsert sizeGe x l).filter p
        = if p x then List.orderedInsert sizeGe x (l.filter p)
          else l.filter p := by
  intro l
  induction l with
  | nil =>
    intro _
    by_cases hp : p x <;> simp [hp]
  | cons y ys ih =>
    intro hsorted
    obtain ⟨hyall, hsys⟩ := List.sorted_cons.mp hsorted
    by_cases hxy : sizeGe x y
    · rw [List.orderedInsert_of_le sizeGe ys hxy]
      by_cases hp : p x
      · rw [if_pos hp]
        rw [orderedInsert_front x ((y :: ys).filter p) ?_]
        · rw [List.filter_cons]
          simp only [hp, if_true]
        · intro z hz
          have hz2 := List.mem_of_mem_filter hz
          rcases List.mem_cons.mp hz2 with rfl | hz3
          · exact hxy
          · exact le_trans (hyall z hz3) hxy
      · rw [if_neg hp, List.filter_cons, List.filter_cons]
        simp only [hp]
        rfl
    · have step : List.orderedInsert sizeGe x (y :: ys)
          = y :: List.orderedInsert sizeGe x ys := by
        simp only [List.orderedInsert, if_neg hxy]
      rw [step, List.filter_cons, List.filter_cons, ih hsys]
      by_cases hp : p x
      · rw [if_pos hp, if_pos hp]
        by_cases hpy : p y
        · simp only [hpy, if_true]
          have step2 : List.orderedInsert sizeGe x (y :: ys.filter p)
              = y :: List.orderedInsert sizeGe x (ys.filter p) := by
            simp only [List.orderedInsert, if_neg hxy]
          rw [step2]
        · simp only [hpy]
          rfl
      · rw [if_neg hp, if_neg hp]

theorem filter_sortLangsDesc (p : Lang → Bool) (l : List Lang) :
    (sortLangsDesc l).filter p = sortLangsDesc (l.filter p) := by
  induction l with
  | nil => rfl
  | cons x xs ih =>
    show (List.orderedInsert sizeGe x (List.insertionSort sizeGe xs)).filter p
      = sortLangsDesc ((x :: xs).filter p)
    rw [filter_orderedInsert_sorted p x _ (List.sorted_insertionSort sizeGe xs)]
    rw [show (List.insertionSort sizeGe xs).filter p
      = sortLangsDesc (xs.filter p) from ih]
    rw [List.filter_cons]
    by_cases hp : p x
    · rw [if_pos hp]
      simp only [hp, if_true]
      rfl
    · rw [if_neg hp]
      simp only [hp]
      rfl

/-- C5: `useLanguages` removes hidden languages before top-N truncation — in
particular when the largest-size language is hidden, the selection is the
top-N of the remaining languages (the next-ranked language is promoted
rather than the selection shrinking). -/
theorem useLanguages_hide_before_truncate (topLangs : List Lang)
    (hide : List String) (langs_count : ℤ) (top : Lang)
    (htop : (sortLangsDesc topLangs).head? = some top)
    (hhidden : (hide.map lowercaseTrim).contains (lowercaseTrim top.name)
      = true) :
    (useLanguages topLangs hide langs_count).1
      = (sortLangsDesc (topLangs.filter
          (fun lang => !(hiddenIn (hide.map lowercaseTrim) lang)))).take
          (clampValue langs_count 1 10).toNat := by
  simp only [useLanguages]
  rw [filter_sortLangsDesc]

def exJS : Lang := { name := "JS", color := "#f1e05a", size := 8/10, repo_name := "alpha" }

def exTS : Lang := { name := "TS", color := "#2b7489", size := 7/10, repo_name := "beta" }

def exGo : Lang := { name := "Go", color := "#00ADD8", size := 5/10, repo_name := "beta" }

/-- Witness for C5: hiding the top-1 language `JS` leaves the top-N of the
remaining languages. -/
theorem useLanguages_hide_before_truncate_witness :
    (sortLangsDesc [exJS, exTS, exGo]).head? = some exJS
    ∧ (["JS"].map lowercaseTrim).contains (lowercaseTrim exJS.name) = true
    ∧ (useLanguages [exJS, exTS, exGo] ["JS"] 5).1
        = (sortLangsDesc ([exJS, exTS, exGo].filter
            (fun lang => !(hiddenIn (["JS"].map lowercaseTrim) lang)))).take
            (clampValue 5 1 10).toNat := by
  have h1 : sortLangsDesc [exJS, exTS, exGo] = [exJS, exTS, exGo] := by
    norm_num [sortLangsDesc, sizeGe, exJS, exTS, exGo]
  have h1h : (sortLangsDesc [exJS, exTS, exGo]).head? = some exJS := by
    rw [h1]
    rfl
  have h2 : (["JS"].map lowercaseTrim).contains (lowercaseTrim exJS.name)
      = true := by
    decide
  exact ⟨h1h, h2, useLanguages_hide_before_truncate _ _ _ _ h1h h2⟩

/-! ### C9: compact-layout segment geometry -/

theorem compactSegmentsAux_preWidths (w : ℚ) :
    ∀ (langs : List Lang) (off : ℚ),
      (compactSegmentsAux w langs off).map (fun s => s.preWidth)
        = langs.map (fun l => round2 (l.size * w)) := by
  intro langs
  induction langs with
  | nil => intro off; rfl
  | cons l rest ih =>
    intro off
    simp only [compactSegmentsAux, List.map_cons]
    rw [ih]

theorem sum_map_size_mul (langs : List Lang) (w : ℚ) :
    (langs.map (fun l => l.size * w)).sum
      = (langs.map (fun l => l.size)).sum * w := by
  induction langs with
  | nil => simp
  | cons l rest ih =>
    simp only [List.map_cons, List.sum_cons, ih]
    ring

theorem compactSegmentsAux_mem_width (w : ℚ) :
    ∀ (langs : List Lang) (off : ℚ) (seg : Segment),
      seg ∈ compactSegmentsAux w langs off →
      seg.width = if seg.preWidth < 10 then seg.preWidth + 10
        else seg.preWidth := by
  intro langs
  induction langs with
  | nil =>
    intro off seg h
    simp [compactSegmentsAux] at h
  | cons l rest ih =>
    intro off seg h
    simp only [compactSegmentsAux, List.mem_cons] at h
    rcases h with rfl | h
    · rfl
    · exact ih _ seg h

theorem compactSegmentsAux_head_x (w : ℚ) (langs : List Lang) (off : ℚ) :
    ∀ seg, (compactSegmentsAux w langs off).head? = some seg →
      seg.x = off := by
  cases langs with
  | nil =>
    intro seg h
    simp [compactSegmentsAux] at h
  | cons l rest =>
    intro seg h
    simp only [compactSegmentsAux, List.head?_cons, Option.some.injEq] at h
    rw [← h]

theorem compactSegmentsAux_chain (w : ℚ) :
    ∀ (langs : List Lang) (off : ℚ),
      List.Chain' (fun a b => b.x = a.x + a.preWidth)
        (compactSegmentsAux w langs off) := by
  intro langs
  induction langs with
  | nil => intro off; simp [compactSegmentsAux]
  | cons l rest ih =>
    intro off
    rw [compactSegmentsAux]
    apply List.chain'_cons'.mpr
    constructor
    · intro y hy
      have hx := compactSegmentsAux_head_x w rest
        (off + round2 (l.size * w)) y hy
      rw [hx]
    · exact ih _

/-- C9 (amended): for one repository whose shares sum to `1`, provided each
share times `cardWidth` is exactly representable at two decimals (so the
`toFixed(2)` rounding is lossless), the pre-boost segment widths sum to
exactly `cardWidth`; unconditionally, each segment whose pre-boost width is
below `10` is rendered `+10` wider, and the segment `x`-offsets accumulate
the pre-boost widths starting from `0`, so when no segment is boosted the
segments exactly tile the strip. -/
theorem compactSegments_spec (langs : List Lang) (width : ℚ)
    (hsum : (langs.map (fun l => l.size)).sum = 1)
    (hexact : ∀ lang ∈ langs, round2 (lang.size * width) = lang.size * width) :
    ((compactSegments langs width).map (fun s => s.preWidth)).sum = width
    ∧ (∀ seg ∈ compactSegments langs width,
        seg.width = if seg.preWidth < 10 then seg.preWidth + 10
          else seg.preWidth)
    ∧ (∀ seg, (compactSegments langs width).head? = some seg → seg.x = 0)
    ∧ List.Chain' (fun a b => b.x = a.x + a.preWidth)
        (compactSegments langs width) := by
  refine ⟨?_, ?_, ?_, ?_⟩
  · rw [compactSegments, compactSegmentsAux_preWidths]
    rw [List.map_congr_left hexact, sum_map_size_mul, hsum, one_mul]
  · intro seg h
    exact compactSegmentsAux_mem_width width langs 0 seg h
  · exact compactSegmentsAux_head_x width langs 0
  · exact compactSegmentsAux_chain width langs 0

def exEqualThirds : List Lang :=
  [{ name := "A", color := "#111111", size := 1/3, repo_name := "r" },
   { name := "B", color := "#222222", size := 1/3, repo_name := "r" },
   { name := "C", color := "#333333", size := 1/3, repo_name := "r" }]

/-- C9 counterexample: three equal thirds at card width 230 have shares
summing to `1`, yet the pre-boost segment widths (which go through
`toFixed(2)`) sum to `230.01`, not `230` — the claim's "sum to exactly
cardWidth" fails on the code. -/
theorem compact_preboost_sum_counterexample :
    (exEqualThirds.map (fun l => l.size)).sum = 1
    ∧ ((compactSegments exEqualThirds 230).map (fun s => s.preWidth)).sum
        = 23001/100
    ∧ (23001/100 : ℚ) ≠ 230 := by
  have hfloor : (⌊(1/3 : ℚ) * 230 * 100 + 1/2⌋ : ℤ) = 7667 := by
    rw [Int.floor_eq_iff]
    constructor <;> norm_num
  have hr : round2 ((1/3 : ℚ) * 230) = 7667/100 := by
    unfold round2 jsRound
    rw [hfloor]
    norm_num
  refine ⟨?_, ?_, by norm_num⟩
  · simp only [exEqualThirds, List.map_cons, List.map_nil, List.sum_cons,
      List.sum_nil]
    norm_num
  · rw [compactSegments, compactSegmentsAux_preWidths]
    simp only [exEqualThirds, List.map_cons, List.map_nil, List.sum_cons,
      List.sum_nil]
    rw [hr]
    norm_num

def exHalves : List Lang :=
  [{ name := "A", color := "#111111", size := 1/2, repo_name := "r" },
   { name := "B", color := "#222222", size := 1/2, repo_name := "r" }]

/-- Witness for C9 (amended) at two exact halves and card width 300. -/
theorem compactSegments_spec_witness :
    (exHalves.map (fun l => l.size)).sum = 1
    ∧ (∀ lang ∈ exHalves, round2 (lang.size * 300) = lang.size * 300)
    ∧ ((compactSegments exHalves 300).map (fun s => s.preWidth)).sum = 300 := by
  have hfloor : (⌊(1/2 : ℚ) * 300 * 100 + 1/2⌋ : ℤ) = 15000 := by
    rw [Int.floor_eq_iff]
    constructor <;> norm_num
  have h1 : (exHalves.map (fun l => l.size)).sum = 1 := by
    simp only [exHalves, List.map_cons, List.map_nil, List.sum_cons,
      List.sum_nil]
    norm_num
  have h2 : ∀ lang ∈ exHalves, round2 (lang.size * 300) = lang.size * 300 := by
    intro lang hlang
    have hval : lang.size = 1/2 := by
      rcases List.mem_cons.mp hlang with rfl | hlang2
      · rfl
      · rcases List.mem_cons.mp hlang2 with rfl | hlang3
        · rfl
        · simp at hlang3
    rw [hval]
    unfold round2 jsRound
    rw [hfloor]
    norm_num
  exact ⟨h1, h2, (compactSegments_spec exHalves 300 h1 h2).1⟩

end GithubReadmeStats
